import Mathlib

/-!
Shallow embedding of the Data-collection-pipeline core
(`src/common/db.py`, `src/common/github_client.py`,
`src/common/models.py`, `src/plugins/operators/github_operator.py`)
together with proofs about the behaviour its specification describes.

Database tables are embedded as Lean lists of row structures plus a
`nextId` counter standing for the SERIAL sequence; each SQL statement of
`db.py` becomes a pure function on those tables.  Timestamps are `Int`
(epoch seconds), DOUBLE PRECISION quality-dimension values are `ℚ`
(the only operation performed on them is an exact `> 0` comparison),
status columns are the TEXT strings the source writes.
-/

/-! ## Table rows (schema from the DDL in `src/common/db.py`) -/

/-- One row of the `versions` table (`DDL_VERSIONS`). -/
structure VersionRow where
  id : Nat
  project_id : Nat
  commit_sha : String
  commit_message : Option String
  committed_at : Int
  discovered_at : Int
  default_branch : String
  metadata_json : Option String
  deriving Repr, DecidableEq

/-- The `versions` table: stored rows plus the SERIAL `id` counter. -/
structure VersionsTable where
  nextId : Nat
  rows : List VersionRow
  deriving Repr

/-- One row of the `analyses` table (`DDL_ANALYSES`); `status` is the TEXT
value the source writes (`pending`, `running`, `success`, `failed`, `skipped`). -/
structure AnalysisRow where
  id : Nat
  version_id : Nat
  project_id : Nat
  status : String
  started_at : Option Int
  finished_at : Option Int
  error_message : Option String
  results_json : Option String
  deriving Repr, DecidableEq

/-- The `analyses` table. -/
structure AnalysesTable where
  nextId : Nat
  rows : List AnalysisRow
  deriving Repr

/-- Input for `insert_version_if_new`: the fields of a `Version` dataclass
that the INSERT statement reads. -/
structure VersionInput where
  project_id : Nat
  commit_sha : String
  commit_message : Option String
  committed_at : Int
  discovered_at : Int
  default_branch : String
  metadata_json : Option String
  deriving Repr

/-! ## Version operations (`src/common/db.py`) -/

/-- The row the INSERT of `insert_version_if_new` produces when the
(project_id, commit_sha) pair is new, with the SERIAL-assigned id. -/
def newVersionRow (db : VersionsTable) (v : VersionInput) : VersionRow :=
  { id := db.nextId,
    project_id := v.project_id,
    commit_sha := v.commit_sha,
    commit_message := v.commit_message,
    committed_at := v.committed_at,
    discovered_at := v.discovered_at,
    default_branch := v.default_branch,
    metadata_json := v.metadata_json }

/-- `insert_version_if_new` (db.py:234-277): `INSERT ... ON CONFLICT
(project_id, commit_sha) DO NOTHING RETURNING id`.  On conflict no row is
returned, so the function returns `None`; otherwise it returns the fresh id. -/
def insert_version_if_new (db : VersionsTable) (v : VersionInput) :
    Option Nat × VersionsTable :=
  if db.rows.any (fun r =>
      r.project_id == v.project_id && r.commit_sha == v.commit_sha) then
    (none, db)
  else
    (some db.nextId, { nextId := db.nextId + 1, rows := db.rows ++ [newVersionRow db v] })

/-- The rows of a versions table holding a given (project_id, commit_sha) pair. -/
def versionRowsFor (db : VersionsTable) (pid : Nat) (sha : String) :
    List VersionRow :=
  db.rows.filter (fun r => r.project_id == pid && r.commit_sha == sha)

/-- C1 — For every project id and commit sha, inserting the same version
twice stores exactly one row: the first call returns the new row's id and
the second returns `none`, with no error. -/
theorem insert_version_if_new_idempotent
    (db : VersionsTable) (v : VersionInput)
    (hfresh : db.rows.any (fun r =>
      r.project_id == v.project_id && r.commit_sha == v.commit_sha) = false) :
    (insert_version_if_new db v).1 = some db.nextId ∧
    (insert_version_if_new (insert_version_if_new db v).2 v).1 = none ∧
    (versionRowsFor (insert_version_if_new (insert_version_if_new db v).2 v).2
        v.project_id v.commit_sha).length = 1 := by
  have hnew : ((newVersionRow db v).project_id == v.project_id &&
      (newVersionRow db v).commit_sha == v.commit_sha) = true := by
    simp [newVersionRow]
  have h1 : insert_version_if_new db v =
      (some db.nextId, ⟨db.nextId + 1, db.rows ++ [newVersionRow db v]⟩) := by
    unfold insert_version_if_new
    rw [hfresh]
    rfl
  have hany : ((db.rows ++ [newVersionRow db v]).any (fun r =>
      r.project_id == v.project_id && r.commit_sha == v.commit_sha)) = true := by
    rw [List.any_append]
    simp [List.any_cons, List.any_nil, hnew]
  have h2 : insert_version_if_new
      ⟨db.nextId + 1, db.rows ++ [newVersionRow db v]⟩ v =
      (none, ⟨db.nextId + 1, db.rows ++ [newVersionRow db v]⟩) := by
    unfold insert_version_if_new
    rw [hany]
    rfl
  refine ⟨by rw [h1], ?_, ?_⟩
  · rw [h1, h2]
  · rw [h1, h2]
    unfold versionRowsFor
    simp only [List.filter_append]
    have hnil : db.rows.filter (fun r =>
        r.project_id == v.project_id && r.commit_sha == v.commit_sha) = [] := by
      rw [List.filter_eq_nil_iff]
      intro r hr
      have := List.any_eq_false.mp hfresh r hr
      simpa using this
    rw [hnil]
    simp [hnew]

/-- Witness for C1 at a concrete input: empty table, a concrete version. -/
theorem insert_version_if_new_idempotent_witness :
    (insert_version_if_new ⟨1, []⟩
      ⟨7, "abc123", some "msg", 100, 200, "main", none⟩).1 = some 1 ∧
    (insert_version_if_new
      (insert_version_if_new ⟨1, []⟩
        ⟨7, "abc123", some "msg", 100, 200, "main", none⟩).2
      ⟨7, "abc123", some "msg", 100, 200, "main", none⟩).1 = none ∧
    (versionRowsFor
      (insert_version_if_new
        (insert_version_if_new ⟨1, []⟩
          ⟨7, "abc123", some "msg", 100, 200, "main", none⟩).2
        ⟨7, "abc123", some "msg", 100, 200, "main", none⟩).2
      7 "abc123").length = 1 :=
  insert_version_if_new_idempotent ⟨1, []⟩
    ⟨7, "abc123", some "msg", 100, 200, "main", none⟩ (by decide)

/-! ## Analysis operations (`src/common/db.py`) -/

/-- Error raised by the database driver; `uniqueViolation` models
psycopg2's UniqueViolation for a UNIQUE-constraint conflict. -/
inductive DbError where
  | uniqueViolation
  deriving Repr, DecidableEq

/-- `create_analysis` (db.py:317-330): plain `INSERT INTO analyses
(version_id, project_id, status) VALUES (.., .., 'pending') RETURNING id`
with no ON CONFLICT clause; `UNIQUE (version_id)` from `DDL_ANALYSES`
makes a second insert for the same version raise a unique violation
(the transaction rolls back, so no table is returned on error). -/
def create_analysis (db : AnalysesTable) (version_id project_id : Nat) :
    Except DbError (Nat × AnalysesTable) :=
  if db.rows.any (fun r => r.version_id == version_id) then
    .error .uniqueViolation
  else
    .ok (db.nextId,
      { nextId := db.nextId + 1,
        rows := db.rows ++ [{
          id := db.nextId,
          version_id := version_id,
          project_id := project_id,
          status := "pending",
          started_at := none,
          finished_at := none,
          error_message := none,
          results_json := none }] })

/-- `update_analysis_started` (db.py:333-344): `UPDATE analyses SET
status = 'running', started_at = now WHERE id = analysis_id`. -/
def update_analysis_started (db : AnalysesTable) (analysis_id : Nat)
    (now : Int) : AnalysesTable :=
  { db with rows := db.rows.map (fun r =>
      if r.id == analysis_id then
        { r with status := "running", started_at := some now }
      else r) }

/-- `analysis_exists_for_version` (db.py:385-402): `SELECT COUNT(*) FROM
analyses WHERE version_id = .. AND status IN ('success','failed','skipped')`,
then `count > 0`. -/
def analysis_exists_for_version (db : AnalysesTable) (version_id : Nat) :
    Bool :=
  0 < db.rows.countP (fun r =>
    r.version_id == version_id &&
    (r.status == "success" || r.status == "failed" || r.status == "skipped"))

/-- Insertion step for the `ORDER BY v.discovered_at` of
`get_versions_pending_analysis`. -/
def insertByDiscovered (v : VersionRow) : List VersionRow → List VersionRow
  | [] => [v]
  | w :: ws =>
    if v.discovered_at ≤ w.discovered_at then v :: w :: ws
    else w :: insertByDiscovered v ws

/-- Sort a list of version rows by `discovered_at` ascending. -/
def sortByDiscovered (l : List VersionRow) : List VersionRow :=
  l.foldr insertByDiscovered []

/-- `get_versions_pending_analysis` (db.py:280-309): `SELECT v.* FROM
versions v LEFT JOIN analyses a ON a.version_id = v.id WHERE a.id IS NULL
ORDER BY v.discovered_at` — versions with **no** analyses row at all. -/
def get_versions_pending_analysis (vtab : VersionsTable)
    (atab : AnalysesTable) : List VersionRow :=
  sortByDiscovered (vtab.rows.filter (fun v =>
    !(atab.rows.any (fun a => a.version_id == v.id))))

/-- Membership in `insertByDiscovered` is membership in the inserted
element or the original list. -/
theorem mem_insertByDiscovered (v : VersionRow) (l : List VersionRow) :
    ∀ x ∈ insertByDiscovered v l, x = v ∨ x ∈ l := by
  induction l with
  | nil => intro x hx; simpa [insertByDiscovered] using hx
  | cons w ws ih =>
    intro x hx
    by_cases hle : v.discovered_at ≤ w.discovered_at
    · rw [insertByDiscovered, if_pos hle] at hx
      rcases List.mem_cons.mp hx with h | h
      · exact Or.inl h
      · exact Or.inr h
    · rw [insertByDiscovered, if_neg hle] at hx
      rcases List.mem_cons.mp hx with h | h
      · exact Or.inr (by simp [h])
      · rcases ih x h with h' | h'
        · exact Or.inl h'
        · exact Or.inr (List.mem_cons_of_mem _ h')

/-- Membership after sorting implies membership before sorting. -/
theorem mem_of_mem_sortByDiscovered (l : List VersionRow) :
    ∀ x ∈ sortByDiscovered l, x ∈ l := by
  induction l with
  | nil => intro x hx; simp [sortByDiscovered] at hx
  | cons w ws ih =>
    intro x hx
    rcases mem_insertByDiscovered w (sortByDiscovered ws) x
        (by simpa [sortByDiscovered] using hx) with h' | h'
    · simp [h']
    · exact List.mem_cons_of_mem _ (ih x h')

/-- C3 — Creating an analysis for a version that already has a row (the
first row still `pending`) fails with a unique-constraint violation rather
than inserting a second row or succeeding silently. -/
theorem create_analysis_conflict
    (db : AnalysesTable) (version_id project_id project_id' : Nat)
    (hfresh : db.rows.any (fun r => r.version_id == version_id) = false) :
    ∃ id1 db1, create_analysis db version_id project_id = .ok (id1, db1) ∧
      (∃ r ∈ db1.rows, r.version_id = version_id ∧ r.status = "pending") ∧
      create_analysis db1 version_id project_id' = .error .uniqueViolation := by
  have h1 : create_analysis db version_id project_id =
      .ok (db.nextId, ⟨db.nextId + 1, db.rows ++ [{
        id := db.nextId,
        version_id := version_id,
        project_id := project_id,
        status := "pending",
        started_at := none,
        finished_at := none,
        error_message := none,
        results_json := none }]⟩) := by
    unfold create_analysis
    rw [hfresh]
    rfl
  refine ⟨db.nextId, _, h1, ?_, ?_⟩
  · exact ⟨_, List.mem_append_right _ (List.mem_singleton_self _), rfl, rfl⟩
  · unfold create_analysis
    have : ((db.rows ++ [({
        id := db.nextId,
        version_id := version_id,
        project_id := project_id,
        status := "pending",
        started_at := none,
        finished_at := none,
        error_message := none,
        results_json := none } : AnalysisRow)]).any
          (fun r => r.version_id == version_id)) = true := by
      rw [List.any_append]
      simp
    rw [this]
    rfl

/-- Witness for C3 at a concrete input: empty analyses table, version 5. -/
theorem create_analysis_conflict_witness :
    ∃ id1 db1, create_analysis ⟨1, []⟩ 5 9 = .ok (id1, db1) ∧
      (∃ r ∈ db1.rows, r.version_id = 5 ∧ r.status = "pending") ∧
      create_analysis db1 5 9 = .error .uniqueViolation :=
  create_analysis_conflict ⟨1, []⟩ 5 9 9 (by decide)

/-- C2 (amended) — A version whose only analyses rows are non-terminal
(`pending`/`running`) is reported as not-yet-done by
`analysis_exists_for_version`, but it does **not** appear in
`get_versions_pending_analysis`, which only returns versions with no
analyses row at all. -/
theorem nonterminal_analysis_not_reselected
    (vtab : VersionsTable) (atab : AnalysesTable) (v : VersionRow)
    (hrow : ∃ a ∈ atab.rows, a.version_id = v.id)
    (hall : ∀ a ∈ atab.rows, a.version_id = v.id →
      a.status = "pending" ∨ a.status = "running") :
    analysis_exists_for_version atab v.id = false ∧
    v ∉ get_versions_pending_analysis vtab atab := by
  constructor
  · have hcount : atab.rows.countP (fun r =>
        r.version_id == v.id &&
        (r.status == "success" || r.status == "failed" ||
         r.status == "skipped")) = 0 := by
      rw [List.countP_eq_zero]
      intro a ha
      by_cases hvid : a.version_id = v.id
      · rcases hall a ha hvid with hs | hs <;>
          simp [hs]
      · simp [hvid]
    unfold analysis_exists_for_version
    rw [hcount]
    rfl
  · intro hmem
    have hfil := mem_of_mem_sortByDiscovered _ v hmem
    have := (List.mem_filter.mp hfil).2
    rcases hrow with ⟨a, ha, hvid⟩
    have hany : atab.rows.any (fun a => a.version_id == v.id) = true :=
      List.any_eq_true.mpr ⟨a, ha, by simp [hvid]⟩
    rw [hany] at this
    simp at this

/-- Concrete scenario for C2: one version, whose single analyses row is
`running` with no finish timestamp (a crashed worker). -/
def v1Ex : VersionRow :=
  ⟨1, 1, "abc123", some "m", 10, 20, "main", none⟩

/-- Versions table of the C2 scenario. -/
def vtabEx : VersionsTable := ⟨2, [v1Ex]⟩

/-- The stuck `running` analyses row of the C2 scenario. -/
def a1Ex : AnalysisRow := ⟨1, 1, 1, "running", some 30, none, none, none⟩

/-- Analyses table of the C2 scenario. -/
def atabEx : AnalysesTable := ⟨2, [a1Ex]⟩

/-- C2 counterexample — in the crashed-worker scenario (a `running` row,
no finish timestamp) `analysis_exists_for_version` does return `false`,
but the version does **not** appear in `get_versions_pending_analysis`,
contradicting the claim that it is re-selected there. -/
theorem running_analysis_not_in_pending_counterexample :
    (a1Ex ∈ atabEx.rows ∧ a1Ex.version_id = v1Ex.id ∧
      a1Ex.status = "running" ∧ a1Ex.finished_at = none) ∧
    analysis_exists_for_version atabEx v1Ex.id = false ∧
    v1Ex ∉ get_versions_pending_analysis vtabEx atabEx := by
  decide

/-- Witness for the amended C2 at the concrete crashed-worker scenario. -/
theorem nonterminal_analysis_not_reselected_witness :
    analysis_exists_for_version atabEx v1Ex.id = false ∧
    v1Ex ∉ get_versions_pending_analysis vtabEx atabEx :=
  nonterminal_analysis_not_reselected vtabEx atabEx v1Ex
    ⟨a1Ex, by decide, by decide⟩ (by decide)

/-! ## Project operations (`src/common/db.py`) -/

/-- One row of the `projects` table (`DDL_PROJECTS`). -/
structure ProjectRow where
  id : Nat
  full_name : String
  owner : String
  repo_name : String
  language : String
  is_active : Bool
  added_at : Int
  deriving Repr, DecidableEq

/-- The `projects` table. -/
structure ProjectsTable where
  nextId : Nat
  rows : List ProjectRow
  deriving Repr

/-- Input for `upsert_project`: the fields of the `Project` dataclass the
INSERT statement reads (`language` already as its TEXT enum value). -/
structure ProjectInput where
  full_name : String
  owner : String
  repo_name : String
  language : String
  is_active : Bool
  added_at : Int
  deriving Repr

/-- `upsert_project` (db.py:171-198): `INSERT ... ON CONFLICT (full_name)
DO UPDATE SET language = EXCLUDED.language, is_active = EXCLUDED.is_active
RETURNING id`.  On conflict only `language` and `is_active` of the existing
row change and the existing row's id is returned; otherwise a fresh row is
inserted with the SERIAL id. -/
def upsert_project (db : ProjectsTable) (p : ProjectInput) :
    Nat × ProjectsTable :=
  match db.rows.find? (fun r => r.full_name == p.full_name) with
  | some r =>
    (r.id, { db with rows := db.rows.map (fun q =>
        if q.full_name == p.full_name then
          { q with language := p.language, is_active := p.is_active }
        else q) })
  | none =>
    (db.nextId, { nextId := db.nextId + 1, rows := db.rows ++ [{
        id := db.nextId,
        full_name := p.full_name,
        owner := p.owner,
        repo_name := p.repo_name,
        language := p.language,
        is_active := p.is_active,
        added_at := p.added_at }] })

/-- `find?` returns the element satisfying the predicate when it is the
only one doing so. -/
theorem find_eq_some_of_unique {α : Type} (pred : α → Bool) :
    ∀ (l : List α) (r : α), r ∈ l → pred r = true →
      (∀ q ∈ l, pred q = true → q = r) → l.find? pred = some r := by
  intro l
  induction l with
  | nil => intro r h; simp at h
  | cons x xs ih =>
    intro r hmem hpred huniq
    by_cases hx : pred x = true
    · rw [List.find?_cons_of_pos _ hx]
      exact congrArg some (huniq x (List.mem_cons_self x xs) hx)
    · rw [List.find?_cons_of_neg _ (by simpa using hx)]
      rcases List.mem_cons.mp hmem with heq | hmem'
      · exact absurd (heq ▸ hpred) hx
      · exact ih r hmem' hpred
          (fun q hq hpq => huniq q (List.mem_cons_of_mem _ hq) hpq)

/-- C8 — When a row with the given `full_name` already exists,
`upsert_project` overwrites only `language` and `is_active` on it, keeps
its `id`, `owner`, `repo_name` and `added_at`, leaves every other row of
the table untouched, and returns the existing row's id. -/
theorem upsert_project_conflict_frame
    (db : ProjectsTable) (p : ProjectInput) (r : ProjectRow)
    (hmem : r ∈ db.rows) (hname : r.full_name = p.full_name)
    (huniq : ∀ q ∈ db.rows, q.full_name = p.full_name → q = r) :
    (upsert_project db p).1 = r.id ∧
    (∃ r' ∈ (upsert_project db p).2.rows,
      r'.id = r.id ∧ r'.owner = r.owner ∧ r'.repo_name = r.repo_name ∧
      r'.added_at = r.added_at ∧ r'.language = p.language ∧
      r'.is_active = p.is_active) ∧
    (∀ q ∈ db.rows, q.full_name ≠ p.full_name →
      q ∈ (upsert_project db p).2.rows) ∧
    (upsert_project db p).2.rows.length = db.rows.length := by
  have hfind : db.rows.find? (fun r => r.full_name == p.full_name) = some r :=
    find_eq_some_of_unique _ db.rows r hmem (by simp [hname])
      (fun q hq hpq => huniq q hq (by simpa using hpq))
  unfold upsert_project
  rw [hfind]
  refine ⟨rfl, ⟨{ r with language := p.language, is_active := p.is_active },
      ?_, rfl, rfl, rfl, rfl, rfl, rfl⟩, ?_, by simp⟩
  · exact List.mem_map.mpr ⟨r, hmem, by rw [if_pos (by simp [hname])]⟩
  · intro q hq hne
    exact List.mem_map.mpr ⟨q, hq, by rw [if_neg (by simpa using hne)]⟩

/-- Witness for C8 at a concrete input: a one-row table updated under the
same `full_name` with a new language and active flag. -/
theorem upsert_project_conflict_frame_witness :
    (upsert_project ⟨2, [⟨1, "acme/widget", "acme", "widget", "unknown", true, 42⟩]⟩
        ⟨"acme/widget", "acme", "widget", "Python", false, 99⟩).1 = 1 ∧
    (∃ r' ∈ (upsert_project
        ⟨2, [⟨1, "acme/widget", "acme", "widget", "unknown", true, 42⟩]⟩
        ⟨"acme/widget", "acme", "widget", "Python", false, 99⟩).2.rows,
      r'.id = 1 ∧ r'.owner = "acme" ∧ r'.repo_name = "widget" ∧
      r'.added_at = 42 ∧ r'.language = "Python" ∧ r'.is_active = false) ∧
    (∀ q ∈ ([⟨1, "acme/widget", "acme", "widget", "unknown", true, 42⟩] :
        List ProjectRow), q.full_name ≠ "acme/widget" →
      q ∈ (upsert_project
        ⟨2, [⟨1, "acme/widget", "acme", "widget", "unknown", true, 42⟩]⟩
        ⟨"acme/widget", "acme", "widget", "Python", false, 99⟩).2.rows) ∧
    (upsert_project ⟨2, [⟨1, "acme/widget", "acme", "widget", "unknown", true, 42⟩]⟩
        ⟨"acme/widget", "acme", "widget", "Python", false, 99⟩).2.rows.length = 1 :=
  upsert_project_conflict_frame
    ⟨2, [⟨1, "acme/widget", "acme", "widget", "unknown", true, 42⟩]⟩
    ⟨"acme/widget", "acme", "widget", "Python", false, 99⟩
    ⟨1, "acme/widget", "acme", "widget", "unknown", true, 42⟩
    (by decide) (by decide) (by decide)

/-! ## Quality gate operations (`src/common/db.py`) -/

/-- One row of the `quality_gates` table (`DDL_QUALITY_GATES`); the nine
DOUBLE PRECISION dimension columns are nullable, embedded as `Option ℚ`
(the source only ever compares them exactly against 0). -/
structure QualityGateRow where
  project_id : Nat
  run_at : Int
  community : Option ℚ
  continuous_integration : Option ℚ
  documentation : Option ℚ
  history : Option ℚ
  management : Option ℚ
  license : Option ℚ
  unit_test : Option ℚ
  pull : Option ℚ
  releases : Option ℚ
  score : Nat
  passed : Bool

/-- The submitted metrics map restricted to the nine keys of
`metric_keys` in `upsert_quality_gate`; an absent key is `none`
(`metrics.get(k)` returns `None`). -/
structure QualityMetrics where
  community : Option ℚ
  continuous_integration : Option ℚ
  documentation : Option ℚ
  history : Option ℚ
  management : Option ℚ
  license : Option ℚ
  unit_test : Option ℚ
  pull : Option ℚ
  releases : Option ℚ

/-- The nine submitted values in the order of `metric_keys`
(db.py:432-435). -/
def qualityMetricValues (m : QualityMetrics) : List (Option ℚ) :=
  [m.community, m.continuous_integration, m.documentation, m.history,
   m.management, m.license, m.unit_test, m.pull, m.releases]

/-- Python's `(metrics.get(k) or 0)`: `None` and the falsy value `0.0`
both become `0`; any other number is returned unchanged. -/
def pyOrZero : Option ℚ → ℚ
  | none => 0
  | some v => if v = 0 then 0 else v

/-- `score = sum(1 for k in metric_keys if (metrics.get(k) or 0) > 0)`
(db.py:436). -/
def qualityScore (m : QualityMetrics) : Nat :=
  (qualityMetricValues m).countP (fun v => 0 < pyOrZero v)

/-- The full row `upsert_quality_gate` writes: the nine dimensions straight
from the submitted map, `score` and `passed` derived server-side
(`passed = score > 5`, db.py:437). -/
def writtenQualityRow (project_id : Nat) (run_at : Int)
    (m : QualityMetrics) : QualityGateRow :=
  { project_id := project_id,
    run_at := run_at,
    community := m.community,
    continuous_integration := m.continuous_integration,
    documentation := m.documentation,
    history := m.history,
    management := m.management,
    license := m.license,
    unit_test := m.unit_test,
    pull := m.pull,
    releases := m.releases,
    score := qualityScore m,
    passed := decide (5 < qualityScore m) }

/-- `upsert_quality_gate` (db.py:428-482): `INSERT ... ON CONFLICT
(project_id) DO UPDATE SET <every column> = EXCLUDED.<column>` — a full
replace keyed on `project_id`. -/
def upsert_quality_gate (tbl : List QualityGateRow) (project_id : Nat)
    (run_at : Int) (m : QualityMetrics) : List QualityGateRow :=
  let row := writtenQualityRow project_id run_at m
  if tbl.any (fun r => r.project_id == project_id) then
    tbl.map (fun r => if r.project_id == project_id then row else r)
  else
    tbl ++ [row]

/-- The nine stored dimension columns of a quality-gate row, in the
`metric_keys` order. -/
def storedDimensions (r : QualityGateRow) : List (Option ℚ) :=
  [r.community, r.continuous_integration, r.documentation, r.history,
   r.management, r.license, r.unit_test, r.pull, r.releases]

/-- The metrics map of the scenario in the claim: four dimensions scored
above zero and five at zero. -/
def fourOfNineMetrics : QualityMetrics :=
  { community := some 1,
    continuous_integration := some 1,
    documentation := some 1,
    history := some 1,
    management := some 0,
    license := some 0,
    unit_test := some 0,
    pull := some 0,
    releases := some 0 }

/-- C7 — `upsert_quality_gate` derives the stored `score` as the count of
the nine submitted dimensions `> 0` and `passed` as `score > 5` (never
reading them from the caller), so both are consistent with the nine stored
dimension values; four positive and five zero dimensions give `score = 4`,
`passed = false`. -/
theorem upsert_quality_gate_derives_score
    (tbl : List QualityGateRow) (project_id : Nat) (run_at : Int)
    (m : QualityMetrics) :
    writtenQualityRow project_id run_at m ∈
      upsert_quality_gate tbl project_id run_at m ∧
    (writtenQualityRow project_id run_at m).score = qualityScore m ∧
    ((writtenQualityRow project_id run_at m).passed = true ↔
      5 < (writtenQualityRow project_id run_at m).score) ∧
    storedDimensions (writtenQualityRow project_id run_at m) =
      qualityMetricValues m ∧
    (writtenQualityRow project_id run_at m).score =
      (storedDimensions (writtenQualityRow project_id run_at m)).countP
        (fun v => 0 < pyOrZero v) ∧
    qualityScore fourOfNineMetrics = 4 ∧
    (writtenQualityRow 1 0 fourOfNineMetrics).passed = false := by
  refine ⟨?_, rfl, by simp [writtenQualityRow], rfl, rfl, by decide, by decide⟩
  unfold upsert_quality_gate
  by_cases hany : tbl.any (fun r => r.project_id == project_id) = true
  · rw [if_pos hany]
    rcases List.any_eq_true.mp hany with ⟨r0, hr0, hpid⟩
    exact List.mem_map.mpr ⟨r0, hr0, by rw [if_pos hpid]⟩
  · rw [if_neg hany]
    exact List.mem_append_right _ (List.mem_singleton_self _)

/-! ## Token pool (`src/common/github_client.py`) -/

/-- `_TokenState` (github_client.py:87-100): rate-limit bookkeeping for
one GitHub token.  `remaining` and `reset_at` are the integers Python
tracks (header values); time is epoch seconds. -/
structure TokenState where
  token : String
  remaining : Int
  reset_at : Int
  deriving Repr, DecidableEq

/-- `_TokenState.is_exhausted`: `remaining == 0 and int(time.time()) < reset_at`. -/
def TokenState.is_exhausted (now : Int) (t : TokenState) : Bool :=
  t.remaining == 0 && now < t.reset_at

/-- `_TokenState.seconds_until_reset`: `max(reset_at - int(time.time()), 0) + 5`. -/
def TokenState.seconds_until_reset (now : Int) (t : TokenState) : Int :=
  max (t.reset_at - now) 0 + 5

/-- Python's `max(l, key=key)`: the first element attaining the maximal
key (later elements replace the best only when strictly greater);
`none` on an empty list (Python raises ValueError there). -/
def pyMaxBy {α : Type} (key : α → Int) : List α → Option α
  | [] => none
  | x :: xs => some (xs.foldl (fun b a => if key b < key a then a else b) x)

/-- Python's `min(l, key=key)`: the first element attaining the minimal key. -/
def pyMinBy {α : Type} (key : α → Int) : List α → Option α
  | [] => none
  | x :: xs => some (xs.foldl (fun b a => if key a < key b then a else b) x)

/-- Pair every element of a list with its position, starting at `n`
(Python list order; stands for object identity inside the pool). -/
def withIdx {α : Type} : Nat → List α → List (Nat × α)
  | _, [] => []
  | n, x :: xs => (n, x) :: withIdx (n + 1) xs

/-- `_TokenPool.current` (github_client.py:118-131): among non-exhausted
tokens pick the one with the highest `remaining`; if none, pick the token
with the soonest `reset_at`, sleep `seconds_until_reset`, optimistically
set its `remaining` back to 5000 and return it.  The result is the chosen
state, the seconds slept, and the pool afterwards; `none` only on an empty
pool (the constructor rejects empty pools). -/
def tokenPool_current (now : Int) (pool : List TokenState) :
    Option (TokenState × Int × List TokenState) :=
  match pyMaxBy (fun it => it.2.remaining)
      ((withIdx 0 pool).filter (fun it =>
        !(TokenState.is_exhausted now it.2))) with
  | some it => some (it.2, 0, pool)
  | none =>
    match pyMinBy (fun it => it.2.reset_at) (withIdx 0 pool) with
    | none => none
    | some it =>
      some ({ it.2 with remaining := 5000 },
            TokenState.seconds_until_reset now it.2,
            pool.set it.1 { it.2 with remaining := 5000 })

/-- The fold behind `pyMaxBy` returns its accumulator or a list element. -/
theorem foldl_max_mem {α : Type} (key : α → Int) :
    ∀ (xs : List α) (acc : α),
      xs.foldl (fun b a => if key b < key a then a else b) acc = acc ∨
      xs.foldl (fun b a => if key b < key a then a else b) acc ∈ xs := by
  intro xs
  induction xs with
  | nil => intro acc; exact Or.inl rfl
  | cons x xs ih =>
    intro acc
    simp only [List.foldl_cons]
    by_cases h : key acc < key x
    · rw [if_pos h]
      rcases ih x with h' | h'
      · exact Or.inr (by simp [h'])
      · exact Or.inr (List.mem_cons_of_mem _ h')
    · rw [if_neg h]
      rcases ih acc with h' | h'
      · exact Or.inl h'
      · exact Or.inr (List.mem_cons_of_mem _ h')

/-- The fold behind `pyMaxBy` dominates its accumulator and every element. -/
theorem foldl_max_ge {α : Type} (key : α → Int) :
    ∀ (xs : List α) (acc : α),
      key acc ≤ key (xs.foldl (fun b a => if key b < key a then a else b) acc) ∧
      ∀ a ∈ xs,
        key a ≤ key (xs.foldl (fun b a => if key b < key a then a else b) acc) := by
  intro xs
  induction xs with
  | nil => intro acc; exact ⟨le_refl _, by simp⟩
  | cons x xs ih =>
    intro acc
    simp only [List.foldl_cons]
    by_cases h : key acc < key x
    · rw [if_pos h]
      obtain ⟨h1, h2⟩ := ih x
      refine ⟨le_trans (le_of_lt h) h1, ?_⟩
      intro a ha
      rcases List.mem_cons.mp ha with rfl | ha'
      · exact h1
      · exact h2 a ha'
    · rw [if_neg h]
      obtain ⟨h1, h2⟩ := ih acc
      refine ⟨h1, ?_⟩
      intro a ha
      rcases List.mem_cons.mp ha with rfl | ha'
      · exact le_trans (not_lt.mp h) h1
      · exact h2 a ha'

/-- The fold behind `pyMinBy` returns its accumulator or a list element. -/
theorem foldl_min_mem {α : Type} (key : α → Int) :
    ∀ (xs : List α) (acc : α),
      xs.foldl (fun b a => if key a < key b then a else b) acc = acc ∨
      xs.foldl (fun b a => if key a < key b then a else b) acc ∈ xs := by
  intro xs
  induction xs with
  | nil => intro acc; exact Or.inl rfl
  | cons x xs ih =>
    intro acc
    simp only [List.foldl_cons]
    by_cases h : key x < key acc
    · rw [if_pos h]
      rcases ih x with h' | h'
      · exact Or.inr (by simp [h'])
      · exact Or.inr (List.mem_cons_of_mem _ h')
    · rw [if_neg h]
      rcases ih acc with h' | h'
      · exact Or.inl h'
      · exact Or.inr (List.mem_cons_of_mem _ h')

/-- The fold behind `pyMinBy` is below its accumulator and every element. -/
theorem foldl_min_le {α : Type} (key : α → Int) :
    ∀ (xs : List α) (acc : α),
      key (xs.foldl (fun b a => if key a < key b then a else b) acc) ≤ key acc ∧
      ∀ a ∈ xs,
        key (xs.foldl (fun b a => if key a < key b then a else b) acc) ≤ key a := by
  intro xs
  induction xs with
  | nil => intro acc; exact ⟨le_refl _, by simp⟩
  | cons x xs ih =>
    intro acc
    simp only [List.foldl_cons]
    by_cases h : key x < key acc
    · rw [if_pos h]
      obtain ⟨h1, h2⟩ := ih x
      refine ⟨le_trans h1 (le_of_lt h), ?_⟩
      intro a ha
      rcases List.mem_cons.mp ha with rfl | ha'
      · exact h1
      · exact h2 a ha'
    · rw [if_neg h]
      obtain ⟨h1, h2⟩ := ih acc
      refine ⟨h1, ?_⟩
      intro a ha
      rcases List.mem_cons.mp ha with rfl | ha'
      · exact le_trans h1 (not_lt.mp h)
      · exact h2 a ha'

/-- `pyMaxBy` yields `none` exactly on the empty list. -/
theorem pyMaxBy_eq_none_iff {α : Type} (key : α → Int) (l : List α) :
    pyMaxBy key l = none ↔ l = [] := by
  cases l <;> simp [pyMaxBy]

/-- `pyMinBy` yields `none` exactly on the empty list. -/
theorem pyMinBy_eq_none_iff {α : Type} (key : α → Int) (l : List α) :
    pyMinBy key l = none ↔ l = [] := by
  cases l <;> simp [pyMinBy]

/-- A `pyMaxBy` result is a list element with maximal key. -/
theorem pyMaxBy_spec {α : Type} (key : α → Int) (l : List α) (x : α)
    (h : pyMaxBy key l = some x) :
    x ∈ l ∧ ∀ a ∈ l, key a ≤ key x := by
  cases l with
  | nil => simp [pyMaxBy] at h
  | cons y ys =>
    have hx : ys.foldl (fun b a => if key b < key a then a else b) y = x := by
      simpa [pyMaxBy] using h
    constructor
    · rcases foldl_max_mem key ys y with h' | h'
      · simp [← hx, h']
      · exact hx ▸ List.mem_cons_of_mem _ h'
    · intro a ha
      obtain ⟨h1, h2⟩ := foldl_max_ge key ys y
      rcases List.mem_cons.mp ha with rfl | ha'
      · exact hx ▸ h1
      · exact hx ▸ h2 a ha'

/-- A `pyMinBy` result is a list element with minimal key. -/
theorem pyMinBy_spec {α : Type} (key : α → Int) (l : List α) (x : α)
    (h : pyMinBy key l = some x) :
    x ∈ l ∧ ∀ a ∈ l, key x ≤ key a := by
  cases l with
  | nil => simp [pyMinBy] at h
  | cons y ys =>
    have hx : ys.foldl (fun b a => if key a < key b then a else b) y = x := by
      simpa [pyMinBy] using h
    constructor
    · rcases foldl_min_mem key ys y with h' | h'
      · simp [← hx, h']
      · exact hx ▸ List.mem_cons_of_mem _ h'
    · intro a ha
      obtain ⟨h1, h2⟩ := foldl_min_le key ys y
      rcases List.mem_cons.mp ha with rfl | ha'
      · exact hx ▸ h1
      · exact hx ▸ h2 a ha'

/-- The value of an indexed pair is an element of the underlying list. -/
theorem withIdx_mem_snd {α : Type} :
    ∀ (n : Nat) (l : List α) (p : Nat × α), p ∈ withIdx n l → p.2 ∈ l := by
  intro n l
  induction l generalizing n with
  | nil => intro p hp; simp [withIdx] at hp
  | cons x xs ih =>
    intro p hp
    rcases List.mem_cons.mp (by simpa [withIdx] using hp) with rfl | hp'
    · simp
    · exact List.mem_cons_of_mem _ (ih (n + 1) p hp')

/-- Every list element appears in its indexed form. -/
theorem mem_withIdx {α : Type} :
    ∀ (n : Nat) (l : List α) (a : α), a ∈ l → ∃ i, (i, a) ∈ withIdx n l := by
  intro n l
  induction l generalizing n with
  | nil => intro a ha; simp at ha
  | cons x xs ih =>
    intro a ha
    rcases List.mem_cons.mp ha with rfl | ha'
    · exact ⟨n, by simp [withIdx]⟩
    · obtain ⟨i, hi⟩ := ih (n + 1) a ha'
      exact ⟨i, by simp [withIdx, hi]⟩

/-- C5 — When at least one credential is not exhausted, `current` returns
(without sleeping) a non-exhausted credential whose `remaining` is maximal
among the non-exhausted ones, and leaves the pool unchanged. -/
theorem tokenPool_current_picks_max_remaining
    (now : Int) (pool : List TokenState)
    (h : ∃ t ∈ pool, TokenState.is_exhausted now t = false) :
    ∃ ts, tokenPool_current now pool = some (ts, 0, pool) ∧
      ts ∈ pool ∧ TokenState.is_exhausted now ts = false ∧
      ∀ u ∈ pool, TokenState.is_exhausted now u = false →
        u.remaining ≤ ts.remaining := by
  obtain ⟨t, htmem, htex⟩ := h
  obtain ⟨i, hit⟩ := mem_withIdx 0 pool t htmem
  have hitf : (i, t) ∈ (withIdx 0 pool).filter (fun it =>
      !(TokenState.is_exhausted now it.2)) :=
    List.mem_filter.mpr ⟨hit, by simp [htex]⟩
  have hne : (withIdx 0 pool).filter (fun it =>
      !(TokenState.is_exhausted now it.2)) ≠ [] := by
    intro hnil
    rw [hnil] at hitf
    simp at hitf
  obtain ⟨it, hmax⟩ : ∃ it, pyMaxBy (fun it => it.2.remaining)
      ((withIdx 0 pool).filter (fun it =>
        !(TokenState.is_exhausted now it.2))) = some it := by
    cases hm : pyMaxBy (fun it => it.2.remaining)
        ((withIdx 0 pool).filter (fun it =>
          !(TokenState.is_exhausted now it.2))) with
    | none => exact absurd ((pyMaxBy_eq_none_iff _ _).mp hm) hne
    | some it => exact ⟨it, rfl⟩
  obtain ⟨hmem', hmax'⟩ := pyMaxBy_spec _ _ _ hmax
  have hmemf := List.mem_filter.mp hmem'
  refine ⟨it.2, ?_, withIdx_mem_snd 0 pool it hmemf.1, by simpa using hmemf.2, ?_⟩
  · unfold tokenPool_current
    rw [hmax]
  · intro u hu huex
    obtain ⟨j, hj⟩ := mem_withIdx 0 pool u hu
    have : (j, u) ∈ (withIdx 0 pool).filter (fun it =>
        !(TokenState.is_exhausted now it.2)) :=
      List.mem_filter.mpr ⟨hj, by simp [huex]⟩
    exact hmax' (j, u) this

/-- The pool of the C5 scenario: remaining values 10, 0 (exhausted,
resets 5 s from now = 100) and 50. -/
def poolExC5 : List TokenState :=
  [⟨"t1", 10, 0⟩, ⟨"t2", 0, 105⟩, ⟨"t3", 50, 0⟩]

/-- Witness for C5: on `poolExC5` at time 100 selection returns the
50-remaining credential, concretely `t3`. -/
theorem tokenPool_current_picks_max_remaining_witness :
    (∃ ts, tokenPool_current 100 poolExC5 = some (ts, 0, poolExC5) ∧
      ts ∈ poolExC5 ∧ TokenState.is_exhausted 100 ts = false ∧
      ∀ u ∈ poolExC5, TokenState.is_exhausted 100 u = false →
        u.remaining ≤ ts.remaining) ∧
    tokenPool_current 100 poolExC5 = some (⟨"t3", 50, 0⟩, 0, poolExC5) :=
  ⟨tokenPool_current_picks_max_remaining 100 poolExC5
      ⟨⟨"t1", 10, 0⟩, by decide, by decide⟩,
   by decide⟩

/-- C6 — When every credential is exhausted, `current` does not fail: it
picks the credential with the soonest `reset_at`, sleeps at least until
that reset time plus the 5-second safety margin, restores the
credential's `remaining` to the 5000 default ceiling and returns it. -/
theorem tokenPool_current_all_exhausted_blocks
    (now : Int) (pool : List TokenState) (hne : pool ≠ [])
    (hall : ∀ t ∈ pool, TokenState.is_exhausted now t = true) :
    ∃ s wait pool',
      tokenPool_current now pool =
        some ({ s with remaining := 5000 }, wait, pool') ∧
      s ∈ pool ∧ (∀ u ∈ pool, s.reset_at ≤ u.reset_at) ∧
      wait = TokenState.seconds_until_reset now s ∧
      s.reset_at - now + 5 ≤ wait ∧
      ({ s with remaining := 5000 } : TokenState).remaining = 5000 := by
  have hfil : (withIdx 0 pool).filter (fun it =>
      !(TokenState.is_exhausted now it.2)) = [] := by
    rw [List.filter_eq_nil_iff]
    intro it hit
    simp [hall it.2 (withIdx_mem_snd 0 pool it hit)]
  have hmaxnone : pyMaxBy (fun it => it.2.remaining)
      ((withIdx 0 pool).filter (fun it =>
        !(TokenState.is_exhausted now it.2))) = none := by
    rw [hfil]
    rfl
  have hwne : withIdx 0 pool ≠ [] := by
    cases pool with
    | nil => exact absurd rfl hne
    | cons x xs => simp [withIdx]
  obtain ⟨it, hmin⟩ : ∃ it, pyMinBy (fun it => it.2.reset_at)
      (withIdx 0 pool) = some it := by
    cases hm : pyMinBy (fun it => it.2.reset_at) (withIdx 0 pool) with
    | none => exact absurd ((pyMinBy_eq_none_iff _ _).mp hm) hwne
    | some it => exact ⟨it, rfl⟩
  obtain ⟨hmem', hmin'⟩ := pyMinBy_spec _ _ _ hmin
  refine ⟨it.2, TokenState.seconds_until_reset now it.2,
      pool.set it.1 { it.2 with remaining := 5000 }, ?_,
      withIdx_mem_snd 0 pool it hmem', ?_, rfl, ?_, rfl⟩
  · unfold tokenPool_current
    rw [hmaxnone, hmin]
  · intro u hu
    obtain ⟨j, hj⟩ := mem_withIdx 0 pool u hu
    exact hmin' (j, u) hj
  · unfold TokenState.seconds_until_reset
    have : it.2.reset_at - now ≤ max (it.2.reset_at - now) 0 := le_max_left _ _
    omega

/-- The pool of the C6 scenario: both credentials exhausted at time 100,
resets at 200 and 150. -/
def poolExC6 : List TokenState :=
  [⟨"t1", 0, 200⟩, ⟨"t2", 0, 150⟩]

/-- Witness for C6: with every credential exhausted, selection picks the
soonest-resetting credential `t2`, sleeps 55 s (reset in 50 s plus the
5 s margin) and returns it with `remaining` restored to 5000. -/
theorem tokenPool_current_all_exhausted_blocks_witness :
    (∃ s wait pool',
      tokenPool_current 100 poolExC6 =
        some ({ s with remaining := 5000 }, wait, pool') ∧
      s ∈ poolExC6 ∧ (∀ u ∈ poolExC6, s.reset_at ≤ u.reset_at) ∧
      wait = TokenState.seconds_until_reset 100 s ∧
      s.reset_at - 100 + 5 ≤ wait ∧
      ({ s with remaining := 5000 } : TokenState).remaining = 5000) ∧
    tokenPool_current 100 poolExC6 =
      some (⟨"t2", 5000, 150⟩, 55, [⟨"t1", 0, 200⟩, ⟨"t2", 5000, 150⟩]) :=
  ⟨tokenPool_current_all_exhausted_blocks 100 poolExC6 (by decide)
      (by decide),
   by decide⟩

/-! ## Rate-aware GET (`GitHubClient._get`, github_client.py:217-245) -/

/-- `_TokenPool.update` (github_client.py:133-143): scan the pool and set
`remaining`/`reset_at` on the first state whose token matches, then stop;
no-op when no state matches. -/
def poolUpdate : List TokenState → String → Int → Int → List TokenState
  | [], _, _, _ => []
  | s :: rest, tok, rem, rst =>
    if s.token == tok then
      { s with remaining := rem, reset_at := rst } :: rest
    else
      s :: poolUpdate rest tok rem rst

/-- An HTTP response as `_get` consumes it: status code, the two optional
rate-limit headers, and the decoded payload. -/
structure HttpResponse where
  status : Nat
  remainingHeader : Option Int
  resetHeader : Option Int
  body : String

/-- Outcome of `_get`: a JSON payload, an HTTPError raised by
`raise_for_status`, or the final `RuntimeError("All tokens exhausted
after {num_tokens} attempts ...")`. -/
inductive GetResult where
  | ok (body : String)
  | httpError (status : Nat)
  | allTokensExhausted (numTokens : Nat)
  deriving Repr, DecidableEq

/-- The retry loop of `_get`: `for attempt in range(num_tokens + 1)`,
embedded with the remaining iteration budget as fuel.  Each iteration
selects a credential, reads the rate-limit headers (falling back to the
tracked values), pushes them into the pool, and on status 403 or 429
additionally forces that credential's `remaining` to 0 and continues with
the next attempt; any other status ≥ 400 raises, otherwise the payload is
returned.  Responses and clock readings are indexed by attempt number. -/
def githubGet_loop (numTokens : Nat) (responses : Nat → HttpResponse)
    (nowAt : Nat → Int) :
    Nat → Nat → List TokenState → GetResult × List TokenState
  | _, 0, pool => (.allTokensExhausted numTokens, pool)
  | attempt, fuel + 1, pool =>
    match tokenPool_current (nowAt attempt) pool with
    | none => (.allTokensExhausted numTokens, pool)
    | some (ts, _wait, pool1) =>
      let resp := responses attempt
      let remaining := resp.remainingHeader.getD ts.remaining
      let reset := resp.resetHeader.getD ts.reset_at
      let pool2 := poolUpdate pool1 ts.token remaining reset
      if resp.status == 403 || resp.status == 429 then
        githubGet_loop numTokens responses nowAt (attempt + 1) fuel
          (poolUpdate pool2 ts.token 0 reset)
      else if 400 ≤ resp.status then
        (.httpError resp.status, pool2)
      else
        (.ok resp.body, pool2)

/-- `GitHubClient._get`: run the loop with one attempt per configured
credential plus one (`range(num_tokens + 1)`); falling out of the loop is
the `RuntimeError`. -/
def githubClient_get (pool : List TokenState) (responses : Nat → HttpResponse)
    (nowAt : Nat → Int) : GetResult × List TokenState :=
  githubGet_loop pool.length responses nowAt 0 (pool.length + 1) pool

/-- `poolUpdate` never changes the pool size. -/
theorem poolUpdate_length :
    ∀ (l : List TokenState) (tok : String) (rem rst : Int),
      (poolUpdate l tok rem rst).length = l.length := by
  intro l
  induction l with
  | nil => intro tok rem rst; rfl
  | cons s rest ih =>
    intro tok rem rst
    by_cases hs : (s.token == tok) = true
    · rw [poolUpdate, if_pos hs]
      rfl
    · rw [poolUpdate, if_neg hs]
      simp [ih]

/-- Selection succeeds on every non-empty pool. -/
theorem tokenPool_current_isSome (now : Int) (pool : List TokenState)
    (hne : pool ≠ []) :
    ∃ ts w pool', tokenPool_current now pool = some (ts, w, pool') := by
  cases hm : pyMaxBy (fun it => it.2.remaining)
      ((withIdx 0 pool).filter (fun it =>
        !(TokenState.is_exhausted now it.2))) with
  | some it =>
    exact ⟨it.2, 0, pool, by unfold tokenPool_current; rw [hm]⟩
  | none =>
    cases hn : pyMinBy (fun it => it.2.reset_at) (withIdx 0 pool) with
    | none =>
      have hnil := (pyMinBy_eq_none_iff _ _).mp hn
      cases pool with
      | nil => exact absurd rfl hne
      | cons x xs => simp [withIdx] at hnil
    | some it =>
      exact ⟨_, _, _, by unfold tokenPool_current; rw [hm, hn]⟩

/-- Selection never changes the pool size. -/
theorem tokenPool_current_length (now : Int) (pool : List TokenState)
    (ts : TokenState) (w : Int) (pool' : List TokenState)
    (h : tokenPool_current now pool = some (ts, w, pool')) :
    pool'.length = pool.length := by
  unfold tokenPool_current at h
  cases hm : pyMaxBy (fun it => it.2.remaining)
      ((withIdx 0 pool).filter (fun it =>
        !(TokenState.is_exhausted now it.2))) with
  | some it =>
    rw [hm] at h
    simp only [Option.some.injEq, Prod.mk.injEq] at h
    rw [← h.2.2]
  | none =>
    rw [hm] at h
    cases hn : pyMinBy (fun it => it.2.reset_at) (withIdx 0 pool) with
    | none => rw [hn] at h; simp at h
    | some it =>
      rw [hn] at h
      simp only [Option.some.injEq, Prod.mk.injEq] at h
      rw [← h.2.2]
      simp

/-- Forcing `remaining := 0` through `poolUpdate` really stores a zeroed
state for the matched token. -/
theorem poolUpdate_zero_mem :
    ∀ (l : List TokenState) (tok : String) (rst : Int),
      (∃ u ∈ l, u.token = tok) →
      ∃ s ∈ poolUpdate l tok 0 rst, s.token = tok ∧ s.remaining = 0 := by
  intro l
  induction l with
  | nil => intro tok rst h; simp at h
  | cons s rest ih =>
    intro tok rst h
    by_cases hs : (s.token == tok) = true
    · rw [poolUpdate, if_pos hs]
      exact ⟨_, List.mem_cons_self _ _, by simpa using hs, rfl⟩
    · rw [poolUpdate, if_neg hs]
      obtain ⟨u, hu, hutok⟩ := h
      rcases List.mem_cons.mp hu with rfl | hu'
      · exact absurd (by simp [hutok]) hs
      · obtain ⟨s', hs', htok', hrem'⟩ := ih tok rst ⟨u, hu', hutok⟩
        exact ⟨s', List.mem_cons_of_mem _ hs', htok', hrem'⟩

/-- C4 — In `_get`, a 403 or 429 response forces the used credential's
`remaining` to 0 in the pool (after the header update) and retries with a
fresh credential selection; the loop body runs at most `num_tokens + 1`
times, and when every attempt hits the quota codes the call ends in the
`RuntimeError` rather than retrying forever. -/
theorem githubClient_get_quota_rotation
    (pool : List TokenState) (responses : Nat → HttpResponse)
    (nowAt : Nat → Int) (hne : pool ≠ [])
    (hquota : ∀ a, (responses a).status = 403 ∨ (responses a).status = 429) :
    (githubClient_get pool responses nowAt).1 =
      .allTokensExhausted pool.length ∧
    githubClient_get pool responses nowAt =
      githubGet_loop pool.length responses nowAt 0 (pool.length + 1) pool ∧
    (∀ numTokens attempt fuel (pool' : List TokenState) ts w pool1,
      tokenPool_current (nowAt attempt) pool' = some (ts, w, pool1) →
      githubGet_loop numTokens responses nowAt attempt (fuel + 1) pool' =
        githubGet_loop numTokens responses nowAt (attempt + 1) fuel
          (poolUpdate
            (poolUpdate pool1 ts.token
              ((responses attempt).remainingHeader.getD ts.remaining)
              ((responses attempt).resetHeader.getD ts.reset_at))
            ts.token 0 ((responses attempt).resetHeader.getD ts.reset_at))) ∧
    (∀ (pool'' : List TokenState) tok rst, (∃ u ∈ pool'', u.token = tok) →
      ∃ s ∈ poolUpdate pool'' tok 0 rst, s.token = tok ∧ s.remaining = 0) := by
  have hcond : ∀ a, ((responses a).status == 403 ||
      (responses a).status == 429) = true := by
    intro a
    rcases hquota a with hs | hs <;> simp [hs]
  have hstep : ∀ numTokens attempt fuel (pool' : List TokenState) ts w pool1,
      tokenPool_current (nowAt attempt) pool' = some (ts, w, pool1) →
      githubGet_loop numTokens responses nowAt attempt (fuel + 1) pool' =
        githubGet_loop numTokens responses nowAt (attempt + 1) fuel
          (poolUpdate
            (poolUpdate pool1 ts.token
              ((responses attempt).remainingHeader.getD ts.remaining)
              ((responses attempt).resetHeader.getD ts.reset_at))
            ts.token 0 ((responses attempt).resetHeader.getD ts.reset_at)) := by
    intro numTokens attempt fuel pool' ts w pool1 hsel
    rw [githubGet_loop, hsel]
    simp only [hcond attempt, if_true]
  have hloop : ∀ fuel attempt (pool' : List TokenState), pool' ≠ [] →
      (githubGet_loop pool.length responses nowAt attempt fuel pool').1 =
        .allTokensExhausted pool.length := by
    intro fuel
    induction fuel with
    | zero => intro attempt pool' _; rfl
    | succ fuel ih =>
      intro attempt pool' hne'
      obtain ⟨ts, w, pool1, hsel⟩ :=
        tokenPool_current_isSome (nowAt attempt) pool' hne'
      rw [hstep pool.length attempt fuel pool' ts w pool1 hsel]
      apply ih
      have h1 := tokenPool_current_length _ _ _ _ _ hsel
      intro hnil
      have : pool1.length = 0 := by
        have h2 := poolUpdate_length
          (poolUpdate pool1 ts.token
            ((responses attempt).remainingHeader.getD ts.remaining)
            ((responses attempt).resetHeader.getD ts.reset_at))
          ts.token 0 ((responses attempt).resetHeader.getD ts.reset_at)
        have h3 := poolUpdate_length pool1 ts.token
          ((responses attempt).remainingHeader.getD ts.remaining)
          ((responses attempt).resetHeader.getD ts.reset_at)
        rw [hnil] at h2
        simp at h2
        omega
      have : pool'.length = 0 := by omega
      exact hne' (List.eq_nil_of_length_eq_zero this)
  exact ⟨hloop (pool.length + 1) 0 pool hne, rfl, hstep, poolUpdate_zero_mem⟩

/-- Witness for C4: a single credential and a response stream that always
answers 403; the call ends in the `RuntimeError` outcome. -/
theorem githubClient_get_quota_rotation_witness :
    ((githubClient_get [⟨"a", 5000, 0⟩]
        (fun _ => ⟨403, some 0, some 100, ""⟩) (fun _ => 50)).1 =
      .allTokensExhausted 1) ∧
    (githubClient_get [⟨"a", 5000, 0⟩]
        (fun _ => ⟨403, some 0, some 100, ""⟩) (fun _ => 50) =
      githubGet_loop 1 (fun _ => ⟨403, some 0, some 100, ""⟩) (fun _ => 50)
        0 2 [⟨"a", 5000, 0⟩]) ∧
    (∀ numTokens attempt fuel (pool' : List TokenState) ts w pool1,
      tokenPool_current 50 pool' = some (ts, w, pool1) →
      githubGet_loop numTokens (fun _ => ⟨403, some 0, some 100, ""⟩)
          (fun _ => 50) attempt (fuel + 1) pool' =
        githubGet_loop numTokens (fun _ => ⟨403, some 0, some 100, ""⟩)
          (fun _ => 50) (attempt + 1) fuel
          (poolUpdate (poolUpdate pool1 ts.token ((some (0 : Int)).getD ts.remaining)
              ((some (100 : Int)).getD ts.reset_at))
            ts.token 0 ((some (100 : Int)).getD ts.reset_at))) ∧
    (∀ (pool'' : List TokenState) tok rst, (∃ u ∈ pool'', u.token = tok) →
      ∃ s ∈ poolUpdate pool'' tok 0 rst, s.token = tok ∧ s.remaining = 0) :=
  githubClient_get_quota_rotation [⟨"a", 5000, 0⟩]
    (fun _ => ⟨403, some 0, some 100, ""⟩) (fun _ => 50)
    (by decide) (fun _ => Or.inl rfl)

/-! ## Batch ingestion (`GitHubIngestionOperator.execute`,
github_operator.py:79-116) -/

/-- What one `_process_project` call produces as seen by `execute`:
either it returns normally (`some id` for a new version, `none` when the
commit was already recorded) or it raises an exception with a message,
which `execute` catches. -/
inductive ProcessOutcome where
  | ok (newVersionId : Option Nat)
  | raised (msg : String)
  deriving Repr, DecidableEq

/-- The summary dict `execute` builds:
`{"processed": 0, "new_versions": 0, "skipped": 0, "errors": []}`. -/
structure IngestionSummary where
  processed : Nat
  new_versions : Nat
  skipped : Nat
  errors : List (String × String)
  deriving Repr, DecidableEq

/-- One iteration of the `for project in projects` loop of `execute`:
on a normal return bump `processed` and either `new_versions` or
`skipped`; on an exception append `{"project": ..., "error": ...}` to
`errors` and continue. -/
def ingestionStep (process : ProjectRow → ProcessOutcome)
    (summary : IngestionSummary) (project : ProjectRow) : IngestionSummary :=
  match process project with
  | .ok (some _) =>
    { summary with processed := summary.processed + 1,
                   new_versions := summary.new_versions + 1 }
  | .ok none =>
    { summary with processed := summary.processed + 1,
                   skipped := summary.skipped + 1 }
  | .raised msg =>
    { summary with errors := summary.errors ++ [(project.full_name, msg)] }

/-- The per-project summary loop of `GitHubIngestionOperator.execute`
(github_operator.py:92-116) alone, with `_process_project` abstracted as
an oracle from project to outcome.  The prelude of `execute` — in
particular the `get_active_projects(db_path=...)` call at line 89, which
precedes the loop and sits outside the try/except — is modelled
separately in `ingestionExecuteRun` below. -/
def ingestionExecute (projects : List ProjectRow)
    (process : ProjectRow → ProcessOutcome) : IngestionSummary :=
  projects.foldl (ingestionStep process) ⟨0, 0, 0, []⟩

/-- Whether an outcome is a normal return. -/
def ProcessOutcome.isOk : ProcessOutcome → Bool
  | .ok _ => true
  | .raised _ => false

/-- Whether an outcome is a normal return reporting a new version. -/
def ProcessOutcome.isNewVersion : ProcessOutcome → Bool
  | .ok (some _) => true
  | _ => false

/-- Whether an outcome is a normal return reporting a skip. -/
def ProcessOutcome.isSkip : ProcessOutcome → Bool
  | .ok none => true
  | _ => false

/-- The error entry a raising outcome contributes, if any. -/
def errorEntry (p : ProjectRow) : ProcessOutcome → Option (String × String)
  | .raised msg => some (p.full_name, msg)
  | .ok _ => none

/-- `isOk` on a normal return. -/
theorem isOk_ok (o : Option Nat) : (ProcessOutcome.ok o).isOk = true := rfl

/-- `isOk` on a raised exception. -/
theorem isOk_raised (m : String) : (ProcessOutcome.raised m).isOk = false := rfl

/-- `isNewVersion` on a new-version return. -/
theorem isNewVersion_some (i : Nat) :
    (ProcessOutcome.ok (some i)).isNewVersion = true := rfl

/-- `isNewVersion` on a skip return. -/
theorem isNewVersion_none : (ProcessOutcome.ok none).isNewVersion = false := rfl

/-- `isNewVersion` on a raised exception. -/
theorem isNewVersion_raised (m : String) :
    (ProcessOutcome.raised m).isNewVersion = false := rfl

/-- `isSkip` on a new-version return. -/
theorem isSkip_some (i : Nat) :
    (ProcessOutcome.ok (some i)).isSkip = false := rfl

/-- `isSkip` on a skip return. -/
theorem isSkip_none : (ProcessOutcome.ok none).isSkip = true := rfl

/-- `isSkip` on a raised exception. -/
theorem isSkip_raised (m : String) :
    (ProcessOutcome.raised m).isSkip = false := rfl

/-- `errorEntry` on a raised exception. -/
theorem errorEntry_raised (p : ProjectRow) (m : String) :
    errorEntry p (.raised m) = some (p.full_name, m) := rfl

/-- `errorEntry` on a normal return. -/
theorem errorEntry_ok (p : ProjectRow) (o : Option Nat) :
    errorEntry p (.ok o) = none := rfl

/-- The loop of `execute` starting from an arbitrary partial summary. -/
theorem ingestionExecute_fold_spec (process : ProjectRow → ProcessOutcome) :
    ∀ (projects : List ProjectRow) (acc : IngestionSummary),
      projects.foldl (ingestionStep process) acc =
        ⟨acc.processed + projects.countP (fun p => (process p).isOk),
         acc.new_versions + projects.countP (fun p => (process p).isNewVersion),
         acc.skipped + projects.countP (fun p => (process p).isSkip),
         acc.errors ++ projects.filterMap (fun p => errorEntry p (process p))⟩ := by
  intro projects
  induction projects with
  | nil => intro acc; simp
  | cons p ps ih =>
    intro acc
    rw [List.foldl_cons, ih]
    cases hp : process p with
    | ok newId =>
      cases newId with
      | some i =>
        simp only [ingestionStep, hp, List.countP_cons, List.filterMap_cons,
          isOk_ok, isNewVersion_some, isSkip_some, errorEntry_ok,
          IngestionSummary.mk.injEq]
        refine ⟨?_, ?_, ?_, ?_⟩ <;> simp <;> omega
      | none =>
        simp only [ingestionStep, hp, List.countP_cons, List.filterMap_cons,
          isOk_ok, isNewVersion_none, isSkip_none, errorEntry_ok,
          IngestionSummary.mk.injEq]
        refine ⟨?_, ?_, ?_, ?_⟩ <;> simp <;> omega
    | raised msg =>
      simp only [ingestionStep, hp, List.countP_cons, List.filterMap_cons,
        isOk_raised, isNewVersion_raised, isSkip_raised, errorEntry_raised,
        IngestionSummary.mk.injEq]
      refine ⟨?_, ?_, ?_, ?_⟩ <;> simp

/-- Per-batch bookkeeping: ok and non-ok outcomes partition the batch. -/
theorem countP_ok_partition (process : ProjectRow → ProcessOutcome) :
    ∀ ps : List ProjectRow,
      ps.countP (fun p => (process p).isOk) +
        (ps.filterMap (fun p => errorEntry p (process p))).length =
      ps.length := by
  intro ps
  induction ps with
  | nil => rfl
  | cons p ps ih =>
    cases hp : process p with
    | ok o =>
      simp only [List.countP_cons, List.filterMap_cons, hp, isOk_ok,
        errorEntry_ok, List.length_cons]
      simp
      omega
    | raised m =>
      simp only [List.countP_cons, List.filterMap_cons, hp, isOk_raised,
        errorEntry_raised, List.length_cons]
      simp
      omega

/-- Normal returns split exactly into new-version and skip returns. -/
theorem countP_ok_split (process : ProjectRow → ProcessOutcome) :
    ∀ ps : List ProjectRow,
      ps.countP (fun p => (process p).isOk) =
        ps.countP (fun p => (process p).isNewVersion) +
        ps.countP (fun p => (process p).isSkip) := by
  intro ps
  induction ps with
  | nil => rfl
  | cons p ps ih =>
    cases hp : process p with
    | ok o =>
      cases o with
      | some i =>
        simp only [List.countP_cons, hp, isOk_ok, isNewVersion_some,
          isSkip_some]
        simp
        omega
      | none =>
        simp only [List.countP_cons, hp, isOk_ok, isNewVersion_none,
          isSkip_none]
        simp
        omega
    | raised m =>
      simp only [List.countP_cons, hp, isOk_raised, isNewVersion_raised,
        isSkip_raised]
      simp
      omega

/-- The summary loop on its own does behave as the spec intends: it
builds a complete summary (`processed` counts the normal returns, split
into `new_versions` and `skipped`; each raising project contributes
exactly its own entry to `errors`; `processed + |errors| = |projects|`),
so no per-project exception aborts the remaining projects or escapes the
loop.  `execute` as a whole never reaches this loop — see
`ingestionExecuteRun_always_raises` below. -/
theorem ingestionExecute_complete_summary
    (projects : List ProjectRow) (process : ProjectRow → ProcessOutcome) :
    (ingestionExecute projects process).processed =
      projects.countP (fun p => (process p).isOk) ∧
    (ingestionExecute projects process).new_versions =
      projects.countP (fun p => (process p).isNewVersion) ∧
    (ingestionExecute projects process).skipped =
      projects.countP (fun p => (process p).isSkip) ∧
    (ingestionExecute projects process).errors =
      projects.filterMap (fun p => errorEntry p (process p)) ∧
    (ingestionExecute projects process).processed +
      (ingestionExecute projects process).errors.length = projects.length ∧
    (ingestionExecute projects process).processed =
      (ingestionExecute projects process).new_versions +
        (ingestionExecute projects process).skipped := by
  have h := ingestionExecute_fold_spec process projects ⟨0, 0, 0, []⟩
  unfold ingestionExecute
  rw [h]
  refine ⟨by simp, by simp, by simp, by simp, ?_, ?_⟩
  · simpa using countP_ok_partition process projects
  · simpa using countP_ok_split process projects

/-! ## `Project` dataclass construction (`src/common/models.py`) -/

/-- A Python exception as raised during `Project` construction. -/
inductive PyError where
  | typeError
  | valueError (msg : String)
  deriving Repr, DecidableEq

/-- What is passed as `default_factory`: either a genuine zero-argument
callable, or a plain non-callable object (here a datetime, an `Int`
epoch value). -/
inductive PyDefaultFactory where
  | callable (f : Unit → Int)
  | nonCallableValue (v : Int)

/-- The timestamp captured once, at class-definition time, by evaluating
`datetime.now(timezone.utc)` in the class body (models.py:71). -/
def classDefinitionTimeNow : Int := 1700000000

/-- models.py:71: `added_at: datetime =
field(default_factory=datetime.now(timezone.utc))` — the *value*
returned by `datetime.now`, a datetime object and not a callable, is
installed as the field's default factory. -/
def addedAtDefaultFactory : PyDefaultFactory :=
  .nonCallableValue classDefinitionTimeNow

/-- Python call semantics for the generated `__init__`: when the argument
is omitted the dataclass machinery evaluates `default_factory()`; calling
a datetime object raises `TypeError`. -/
def callDefaultFactory : PyDefaultFactory → Except PyError Int
  | .callable f => .ok (f ())
  | .nonCallableValue _ => .error .typeError

/-- The fully constructed `Project` dataclass value. -/
structure ProjectModel where
  full_name : String
  owner : String
  repo_name : String
  language : String
  is_active : Bool
  added_at : Int
  id : Option Nat
  deriving Repr, DecidableEq

/-- The generated `Project.__init__` (models.py:57-72): every field with
a default may be omitted; an omitted `added_at` is produced by calling
the installed default factory. -/
def projectInit (full_name owner repo_name : String)
    (language : String := "unknown") (is_active : Bool := true)
    (added_at? : Option Int := none) (id : Option Nat := none) :
    Except PyError ProjectModel :=
  match added_at? with
  | some d =>
    .ok ⟨full_name, owner, repo_name, language, is_active, d, id⟩
  | none =>
    (callDefaultFactory addedAtDefaultFactory).map fun d =>
      ⟨full_name, owner, repo_name, language, is_active, d, id⟩

/-- Split a character list at the first `'/'`, if any. -/
def splitCharsOnce : List Char → Option (List Char × List Char)
  | [] => none
  | c :: cs =>
    if c = '/' then some ([], cs)
    else match splitCharsOnce cs with
      | none => none
      | some (l, r) => some (c :: l, r)

/-- Python's `str.strip()`: drop whitespace from both ends. -/
def pyStrip (s : String) : String :=
  String.mk (((s.toList.dropWhile Char.isWhitespace).reverse.dropWhile
    Char.isWhitespace).reverse)

/-- Python's `s.split("/", 1)`: at most one split, at the first slash —
`[s]` when there is no slash, otherwise the two surrounding pieces. -/
def splitOnceSlash (s : String) : List String :=
  match splitCharsOnce s.toList with
  | none => [s]
  | some (l, r) => [String.mk l, String.mk r]

/-- `Project.from_full_name` (models.py:74-83): strip, split once on "/",
raise `ValueError` unless exactly two parts, then construct the Project
(without passing `added_at`, so the default factory is called). -/
def project_from_full_name (full_name : String) :
    Except PyError ProjectModel :=
  match splitOnceSlash (pyStrip full_name) with
  | [owner, repo_name] => projectInit full_name owner repo_name
  | _ =>
    .error (.valueError
      ("Invalid full_name. Expected format: owner/repo_name."))

/-- C10 — Constructing a `Project` without explicitly supplying
`added_at` always raises `TypeError` (the installed default factory is a
datetime value, not a callable), and in particular every
`Project.from_full_name` call on a well-formed `owner/repo` string (one
that splits into exactly two parts) raises `TypeError`. -/
theorem project_construction_raises_typeError
    (full_name owner repo_name language : String) (is_active : Bool)
    (id : Option Nat) (s : String) (a b : String)
    (hs : splitOnceSlash (pyStrip s) = [a, b]) :
    projectInit full_name owner repo_name language is_active none id =
      .error .typeError ∧
    project_from_full_name s = .error .typeError := by
  constructor
  · rfl
  · unfold project_from_full_name
    rw [hs]
    rfl

/-- Witness for C10 at the well-formed input "apache/spark". -/
theorem project_construction_raises_typeError_witness :
    (projectInit "apache/spark" "apache" "spark" "unknown" true none none =
      .error .typeError) ∧
    project_from_full_name "apache/spark" = .error .typeError :=
  project_construction_raises_typeError "apache/spark" "apache" "spark"
    "unknown" true none "apache/spark" "apache" "spark" (by decide)

/-! ## `execute` including its prelude
(`GitHubIngestionOperator.execute`, github_operator.py:79-116) -/

/-- Parameter names of `common.db.get_active_projects` (db.py:201-226):
the function takes no parameters at all. -/
def get_active_projects_params : List String := []

/-- Python keyword-argument binding: a call raises `TypeError` when a
supplied keyword is not among the callee's parameter names. -/
def bindKeywordArgs (params keywords : List String) :
    Except PyError Unit :=
  if keywords.all (fun k => params.contains k) then .ok ()
  else .error .typeError

/-- The keyword arguments `execute` passes at github_operator.py:89:
`get_active_projects(db_path=self.db_path)`. -/
def executeProjectsCallKeywords : List String := ["db_path"]

/-- `GitHubIngestionOperator.execute` with its prelude: before the
summary loop, and outside any try/except, it calls
`get_active_projects(db_path=self.db_path)`, whose keywords must bind
against db.py's parameter list; only if that call returns does the loop
of `ingestionExecute` run over the returned projects (supplied here as
an oracle for the database state). -/
def ingestionExecuteRun (process : ProjectRow → ProcessOutcome)
    (activeProjects : List ProjectRow) :
    Except PyError IngestionSummary :=
  (bindKeywordArgs get_active_projects_params
      executeProjectsCallKeywords).map
    (fun _ => ingestionExecute activeProjects process)

/-- C9 — the code contradicts the claim and `execute`'s own docstring
("Returns a summary dict that Airflow stores as XCom"): db.py's
`get_active_projects` accepts no `db_path` keyword, so the prelude call
at github_operator.py:89 raises `TypeError` outside the try/except on
every run, for every database state and every per-project behaviour;
`execute` never reaches its loop and never returns a summary. -/
theorem ingestionExecuteRun_always_raises
    (process : ProjectRow → ProcessOutcome)
    (activeProjects : List ProjectRow) :
    ingestionExecuteRun process activeProjects = .error .typeError := rfl
